import Mathlib

/-!
Verification of `TimestampedRollingFileAppender` (log4cpp).

Shallow embedding of `src/src/TimestampedRollingFileAppender.cpp`.
Strings are modelled as `List Char`; machine `int64_t` arithmetic is
modelled on `Int` with explicit two's-complement wrapping where the
source can overflow; fallible C++ code (functions that may throw) is
modelled in `Except String`; syscall-dependent code takes an explicit
environment recording each syscall outcome.
-/

namespace Log4cpp

abbrev Str := List Char

/-- Models `::isdigit` in the C locale: the ASCII digits. -/
def isDig (c : Char) : Bool := 48 ≤ c.toNat && c.toNat ≤ 57

/-- Decimal value of a digit string (most significant digit first). -/
def digitsVal (s : Str) : Int := s.foldl (fun a c => a * 10 + ((c.toNat : Int) - 48)) 0

/-- Two's-complement wrap of an unbounded integer into the `int64_t` range.
Signed overflow in C++ is UB; we model the ubiquitous wrapping behaviour. -/
def wrap64 (x : Int) : Int := (x + 2 ^ 63) % 2 ^ 64 - 2 ^ 63

/-- Loop body of `ConvertStrToInt64`: `res = res * 10 + (c - '0')` on `int64_t`
with the source's `if (res < 0) throw overflow_error` check after each step. -/
def convLoop : Int → Str → Except String Int
  | res, [] => .ok res
  | res, c :: cs =>
      let r := wrap64 (res * 10 + ((c.toNat : Int) - 48))
      if r < 0 then .error "integer overflow" else convLoop r cs

/-- Embeds `ConvertStrToInt64` (TimestampedRollingFileAppender.cpp:242-257). -/
def ConvertStrToInt64 (s : Str) : Except String Int :=
  if s = [] then .error "s is empty"
  else if ¬ s.all isDig then .error "s contains non-digit characters"
  else convLoop 0 s

/-- Embeds `ExtractDatetimeIso8601` (TimestampedRollingFileAppender.cpp:291-318).
Recognises `.yyyymmddThhmmss` followed by `Z` or a sign and four digits,
optionally followed by `.` and anything; returns the match without the
leading dot, or the empty string. -/
def ExtractDatetimeIso8601 (s : Str) : Str :=
  if s.length < 17 ∨ s.getD 0 ' ' ≠ '.' ∨ ¬ ((s.drop 1).take 8).all isDig then []
  else if s.getD 9 ' ' ≠ 'T' ∨ ¬ ((s.drop 10).take 6).all isDig then []
  else
    let endChar := s.getD 16 ' '
    if endChar = 'Z' then
      if s.length = 17 ∨ (17 < s.length ∧ s.getD 17 ' ' = '.') then (s.drop 1).take 16 else []
    else if endChar = '+' ∨ endChar = '-' then
      if s.length < 21 ∨ ¬ ((s.drop 17).take 4).all isDig then []
      else if s.length = 21 ∨ (21 < s.length ∧ s.getD 21 ' ' = '.') then (s.drop 1).take 20
      else []
    else []

/-- Embeds `ExtractDigits` (TimestampedRollingFileAppender.cpp:320-335).
The scan `while (i < s.size() && digit)` computes the longest digit run
after the dot, i.e. `takeWhile isDig`.  When the run extends to the end of
the string the source returns `s.substr(1)`, which is that same run. -/
def ExtractDigits (s : Str) : Str :=
  match s with
  | [] => []
  | c :: t =>
      if c ≠ '.' then []
      else
        let ds := t.takeWhile isDig
        if ds.length < 8 then []
        else
          match t.drop ds.length with
          | [] => t
          | c2 :: _ => if c2 = '.' then ds else []

/-- Embeds `ExtractDigits1` (TimestampedRollingFileAppender.cpp:368-374):
a dot followed by one or more digits and nothing else. -/
def ExtractDigits1 (s : Str) : Str :=
  match s with
  | [] => []
  | c :: t => if c ≠ '.' then [] else if t ≠ [] ∧ t.all isDig then t else []

/-- Index of the last `+` or `-`, as `std::string::find_last_of("+-")`. -/
def findLastSign : Str → Option Nat
  | [] => none
  | c :: cs =>
      match findLastSign cs with
      | some i => some (i + 1)
      | none => if c = '+' ∨ c = '-' then some 0 else none

/-- Digit part of `std::stoi`: longest leading digit run; throws
`invalid_argument` when there is none. -/
def stoiDigits (r : Str) : Except String Int :=
  let ds := r.takeWhile isDig
  if ds = [] then .error "invalid stoi argument" else .ok (digitsVal ds)

/-- Models `std::stoi`: optional blanks, optional sign, leading digit run.
(The out-of-range throw cannot trigger on the at-most-two-digit substrings
this file feeds it.) -/
def stoi (s : Str) : Except String Int :=
  match s.dropWhile (fun c => c = ' ') with
  | '+' :: r => stoiDigits r
  | '-' :: r => (stoiDigits r).map (fun v => -v)
  | r => stoiDigits r

/-- Embeds `ParseTimezoneOffset` (TimestampedRollingFileAppender.cpp:560-575).
Note the source reads the minutes with `offsetStr.substr(4, 2)`: on a
five-character `±hhmm` suffix that substring holds only the character at
index 4, the units digit of the minutes. -/
def ParseTimezoneOffset (s : Str) : Except String Int :=
  if s.contains 'Z' then .ok 0
  else
    match findLastSign s with
    | none => .ok 0
    | some pos =>
        let offsetStr := s.drop pos
        do
          let hours ← stoi ((offsetStr.drop 1).take 2)
          let minutes ← stoi ((offsetStr.drop 4).take 2)
          let off := hours * 3600 + minutes * 60
          .ok (if offsetStr.getD 0 ' ' = '-' then -off else off)

/-- The `struct tm` fields the source uses. -/
structure TmRec where
  tm_sec : Int
  tm_min : Int
  tm_hour : Int
  tm_mday : Int
  tm_mon : Int
  tm_year : Int
  deriving Repr, DecidableEq

/-- Embeds `ConvertDatetimeIso8601ToTm` (TimestampedRollingFileAppender.cpp:229-240):
`sscanf(s, "%4d%2d%2dT%2d%2d%2d")` on the digit-shaped strings produced by
`ExtractDatetimeIso8601` reads six fixed-width digit fields (those strings
contain no whitespace or signs at the field positions); on anything else the
source throws `invalid_argument`. -/
def ConvertDatetimeIso8601ToTm (s : Str) : Except String TmRec :=
  let y := s.take 4
  let mo := (s.drop 4).take 2
  let d := (s.drop 6).take 2
  let h := (s.drop 9).take 2
  let mi := (s.drop 11).take 2
  let se := (s.drop 13).take 2
  if y.length = 4 ∧ y.all isDig ∧ mo.length = 2 ∧ mo.all isDig ∧ d.length = 2 ∧ d.all isDig
      ∧ s.getD 8 ' ' = 'T' ∧ h.length = 2 ∧ h.all isDig ∧ mi.length = 2 ∧ mi.all isDig
      ∧ se.length = 2 ∧ se.all isDig then
    .ok { tm_year := digitsVal y - 1900, tm_mon := digitsVal mo - 1, tm_mday := digitsVal d,
          tm_hour := digitsVal h, tm_min := digitsVal mi, tm_sec := digitsVal se }
  else .error "s"

/-- Days since 1970-01-01 of a civil date (Hinnant's algorithm, as used by
libc to implement `timegm`); `m` is 1-based. -/
def daysFromCivil (y m d : Int) : Int :=
  let y2 := y - (if m ≤ 2 then 1 else 0)
  let era := (if 0 ≤ y2 then y2 else y2 - 399) / 400
  let yoe := y2 - era * 400
  let mp := if 2 < m then m - 3 else m + 9
  let doy := (153 * mp + 2) / 5 + d - 1
  let doe := yoe * 365 + yoe / 4 - yoe / 100 + doy
  era * 146097 + doe - 719468

/-- Models `::timegm`: epoch seconds of a `struct tm` interpreted in UTC, with the
libc normalisation of an out-of-range month and the linear contribution of
the day/hour/minute/second fields. -/
def timegm (tm : TmRec) : Int :=
  let monAdj := Int.fdiv tm.tm_mon 12
  let mon := Int.emod tm.tm_mon 12
  let y := tm.tm_year + 1900 + monAdj
  86400 * daysFromCivil y (mon + 1) tm.tm_mday
    + 3600 * tm.tm_hour + 60 * tm.tm_min + tm.tm_sec

/-- Embeds `ConvertDatetimeIso8601ToTimestamp` (TimestampedRollingFileAppender.cpp:216-227). -/
def ConvertDatetimeIso8601ToTimestamp (s : Str) : Except String Int := do
  let tm ← ConvertDatetimeIso8601ToTm s
  let time := timegm tm
  let offset ← ParseTimezoneOffset s
  if s.contains 'Z' ∨ s.contains '+' ∨ s.contains '-' then .ok (time - offset)
  else .ok time

/-- Embeds `ExtractTimestamp` (TimestampedRollingFileAppender.cpp:337-366): the
out-parameter-and-bool result is modelled as `Option Int`; the `try/catch`
blocks absorb conversion exceptions into a `false` result. -/
def ExtractTimestamp (s : Str) : Option Int :=
  if s = [] then none
  else
    let m := ExtractDatetimeIso8601 s
    if m ≠ [] then
      match ConvertDatetimeIso8601ToTimestamp m with
      | .ok t => some t
      | .error _ => none
    else
      let m2 := ExtractDigits s
      if m2 ≠ [] then
        match ConvertStrToInt64 m2 with
        | .ok t => some t
        | .error _ => none
      else none

/-- Embeds `ExtractIndex` (TimestampedRollingFileAppender.cpp:376-392). -/
def ExtractIndex (s : Str) : Option Int :=
  if s = [] then none
  else
    match ExtractDigits1 s with
    | [] => none
    | ds =>
        match ConvertStrToInt64 ds with
        | .ok v => some v
        | .error _ => none

/-! ### Suffix grammars as written in the spec

These definitions follow the WORDS of the specification (spec.md §4.2 and
§6), to be compared with the source-translated extractors above. -/

/-- Spec: a suffix of the epoch form is a dot, at least eight digits `ds`,
then either nothing or a dot followed by anything. -/
def EpochSpecMatch (s ds : Str) : Prop :=
  ∃ rest, s = '.' :: (ds ++ rest) ∧ ds.all isDig = true ∧ 8 ≤ ds.length
    ∧ (rest = [] ∨ ∃ r, rest = '.' :: r)

/-- Spec: a suffix of the legacy form is a dot followed by one or more
digits with no further segment. -/
def LegacySpecMatch (s ds : Str) : Prop :=
  s = '.' :: ds ∧ ds ≠ [] ∧ ds.all isDig = true

/-- Spec: the zone is `Z` or a sign and four digits. -/
def IsoZoneSpec (zone : Str) : Prop :=
  zone = ['Z']
  ∨ ∃ c a b e f, (c = '+' ∨ c = '-') ∧ isDig a = true ∧ isDig b = true
      ∧ isDig e = true ∧ isDig f = true ∧ zone = [c, a, b, e, f]

/-- Spec: after the zone comes nothing, or a dot and anything. -/
def IsoTailSpec (rest : Str) : Prop := rest = [] ∨ ∃ r, rest = '.' :: r

/-- Spec: an ISO-8601 suffix is `.YYYYMMDDThhmmss` (eight digits, `T`, six
digits), a zone, and an optional dotted tail; the extracted match `m` is
the datetime-with-zone portion without the leading dot. -/
def IsoSpecMatch (s m : Str) : Prop :=
  ∃ d8 d6 zone rest,
    s = '.' :: (d8 ++ 'T' :: (d6 ++ (zone ++ rest)))
    ∧ d8.length = 8 ∧ d8.all isDig = true ∧ d6.length = 6 ∧ d6.all isDig = true
    ∧ IsoZoneSpec zone ∧ IsoTailSpec rest
    ∧ m = d8 ++ 'T' :: (d6 ++ zone)

/-- Value of a digit string folded onto an accumulator (the loop invariant
shape of `ConvertStrToInt64`). -/
def digitsValFrom (acc : Int) (s : Str) : Int :=
  s.foldl (fun a c => a * 10 + ((c.toNat : Int) - 48)) acc

/-- The four classifications the scanner can give a suffix (spec.md §4.2). -/
inductive SuffixClass where
  | isoClass
  | epochClass
  | legacyClass
  | noClass
  deriving Repr, DecidableEq

/-- The classifier as `HandleBackupLogFile` runs it: `ExtractTimestamp`
(ISO-8601 first, then the epoch digit rule), then `ExtractIndex` as the
legacy fallback, else rejection. -/
def classifySuffix (s : Str) : SuffixClass :=
  match ExtractTimestamp s with
  | some _ => if ExtractDatetimeIso8601 s ≠ [] then .isoClass else .epochClass
  | none =>
      match ExtractIndex s with
      | some _ => .legacyClass
      | none => .noClass

/-! ### ISO-8601 encoding (`ConvertTimeToIso8601`) -/

/-- Decimal rendering of a natural number, zero-padded to width `w`. -/
def padNat (w : Nat) (n : Nat) : Str :=
  let ds := Nat.toDigits 10 n
  List.replicate (w - ds.length) '0' ++ ds

/-- Models `std::to_string` on an `int64_t` value. -/
def intToStr (n : Int) : Str :=
  if n < 0 then '-' :: Nat.toDigits 10 (-n).toNat else Nat.toDigits 10 n.toNat

/-- Civil date from days since 1970-01-01 (Hinnant's algorithm, the inverse
of `daysFromCivil`; used by libc's `localtime`). -/
def civilFromDays (z0 : Int) : Int × Int × Int :=
  let z := z0 + 719468
  let era := (if 0 ≤ z then z else z - 146096) / 146097
  let doe := z - era * 146097
  let yoe := (doe - doe / 1460 + doe / 36524 - doe / 146096) / 365
  let y := yoe + era * 400
  let doy := doe - (365 * yoe + yoe / 4 - yoe / 100)
  let mp := (5 * doy + 2) / 153
  let d := doy - (153 * mp + 2) / 5 + 1
  let m := mp + (if mp < 10 then 3 else -9)
  (y + (if m ≤ 2 then 1 else 0), m, d)

/-- Models `strftime(str, sizeof str, "%Y%m%dT%H%M%S%z", localtime(&t))`
for a local timezone at a fixed offset of `z` seconds east of UTC: the civil
fields of `t + z` followed by the sign and `hhmm` of `z` (glibc's `%z`
carries no colon). -/
def formatIso (z t : Int) : Str :=
  let loc := t + z
  let days := Int.fdiv loc 86400
  let secs := Int.emod loc 86400
  let ymd := civilFromDays days
  let az := if z < 0 then -z else z
  padNat 4 ymd.1.toNat ++ padNat 2 ymd.2.1.toNat ++ padNat 2 ymd.2.2.toNat
    ++ 'T' :: (padNat 2 (secs / 3600).toNat ++ padNat 2 ((secs % 3600) / 60).toNat
        ++ padNat 2 (secs % 60).toNat)
    ++ (if z < 0 then '-' else '+')
        :: (padNat 2 (az / 3600).toNat ++ padNat 2 ((az % 3600) / 60).toNat)

/-- Embeds `RemoveChar` (TimestampedRollingFileAppender.cpp:577-586): compacts the
buffer by dropping every occurrence of `c`. -/
def RemoveChar (s : Str) (c : Char) : Str := s.filter (fun x => x != c)

/-! ### Syscall environment

Effectful code is embedded against an explicit record of syscall outcomes:
one field per independent syscall result that the source inspects. -/

/-- One `readdir` entry together with the outcomes of the syscalls the
scanner may perform on it: `d_type == DT_REG`, the `stat` inside
`ExistRegularFile` (`none` models a failing `stat`, which the source turns
into a thrown `runtime_error`), the `st_mtime` for
`GetLastModifiedTimestamp` (a failing `stat` there yields `-1`, modelled by
a negative value), and the legacy `rename` outcome. -/
structure DirEntry where
  name : Str
  isReg : Bool
  statRes : Option Bool
  mtime : Int
  renameOk : Bool

/-- Appender configuration (immutable after construction). -/
structure Config where
  fileName : Str
  maxFileSize : Int
  maxBackupCount : Int
  maxBackupDays : Int

/-- Outcomes of the remaining syscalls touched by `_append`/`rollOver`:
the two `lseek` results, lock-file `open` and `flock`, `time(nullptr)`,
`localtime`/`strftime` (with the fixed local zone offset), `opendir`,
whether `readdir` ended with an error, the injected compressor, and whether
`remove` calls succeed. -/
structure Env where
  now : Int
  zoneOffset : Int
  localtimeOk : Bool
  strftimeOk : Bool
  seekEnd1 : Int
  lockOpenOk : Bool
  flockOk : Bool
  seekEnd2 : Int
  opendirOk : Bool
  entries : List DirEntry
  readdirError : Bool
  compressFunc : Option (Str → Bool × Str)
  removeOk : Bool

/-- Embeds `ConvertTimeToIso8601` (TimestampedRollingFileAppender.cpp:259-277):
a failing `localtime` yields the empty string; a failing `strftime` throws;
otherwise the formatted string with colons removed. -/
def ConvertTimeToIso8601 (env : Env) (t : Int) : Except String Str :=
  if env.localtimeOk = false then .ok []
  else if env.strftimeOk = false then .error "Could not call strftime"
  else .ok (RemoveChar (formatIso env.zoneOffset t) ':')

/-- Embeds `GetDatetimeStr` (TimestampedRollingFileAppender.cpp:554-558): falls
back to decimal epoch seconds when the formatter returned an empty string
(the `strftime` throw is not caught and propagates). -/
def GetDatetimeStr (env : Env) (timer : Int) : Except String Str := do
  let s ← ConvertTimeToIso8601 env timer
  if s = [] then .ok (intToStr timer) else .ok s

/-- Embeds `ExistRegularFile` (TimestampedRollingFileAppender.cpp:279-289): empty
path is `false`; a failing `stat` THROWS `runtime_error`; otherwise
`S_ISREG`. -/
def ExistRegularFile (filePath : Str) (statRes : Option Bool) : Except String Bool :=
  if filePath = [] then .ok false
  else
    match statRes with
    | none => .error "Could not stat"
    | some b => .ok b

/-- Embeds `GetLastModifiedTimestamp` (TimestampedRollingFileAppender.cpp:394-405):
returns the mtime, or `-1` on a failing `stat` (which also leaves `errno`
set — second component). -/
def GetLastModifiedTimestamp (mtime : Int) : Int × Bool :=
  if mtime < 0 then (-1, true) else (mtime, false)

/-- Embeds `SplitPathIntoDirAndFile` (TimestampedRollingFileAppender.cpp:588-599). -/
def SplitPathIntoDirAndFile (filePath : Str) : Str × Str :=
  match findLastSlash filePath with
  | none => (['.'], filePath)
  | some pos => (filePath.take pos, filePath.drop (pos + 1))
where
  findLastSlash : Str → Option Nat
    | [] => none
    | c :: cs =>
        match findLastSlash cs with
        | some i => some (i + 1)
        | none => if c = '/' then some 0 else none

/-- Embeds `CompressLog` (TimestampedRollingFileAppender.cpp:515-540).  Result:
`((returned bool, value left in the out parameter), paths whose removal was
attempted, whether a failing remove left errno set)`.  The out parameter is
initialised to the empty string and then written by the injected callable;
on a failed compression the source removes that path and returns `false`
WITHOUT clearing the out parameter. -/
def CompressLog (compressFunc : Option (Str → Bool × Str)) (removeOk : Bool)
    (logFilePath : Str) : (Bool × Str) × List Str × Bool :=
  match compressFunc with
  | none => ((true, logFilePath), [], false)
  | some f =>
      let r := f logFilePath
      if r.1 = false then ((false, r.2), [r.2], !removeOk)
      else ((true, r.2), [logFilePath], !removeOk)

/-- Embeds `HandleLegacyLogFile` (TimestampedRollingFileAppender.cpp:488-513):
rename the index-suffixed file to `<base>.<iso8601(mtime)>`, compress, and
report `(mtime, final path)`; the boolean-and-out-parameters result is an
`Option`, the second component records whether `errno` was left set. -/
def HandleLegacyLogFile (cfg : Config) (env : Env) (e : DirEntry) :
    Except String (Option (Int × Str) × Bool) :=
  let ts := (GetLastModifiedTimestamp e.mtime).1
  let er1 := (GetLastModifiedTimestamp e.mtime).2
  if ts < 0 then .ok (none, er1)
  else do
    let ds ← GetDatetimeStr env ts
    let newPath := cfg.fileName ++ '.' :: ds
    if e.renameOk = false then .ok (none, true)
    else
      let c := CompressLog env.compressFunc env.removeOk newPath
      let final := if c.1.1 then c.1.2 else newPath
      .ok (some (ts, final), er1 || c.2.2)

/-- Embeds `HandleBackupLogFile` (TimestampedRollingFileAppender.cpp:452-486). -/
def HandleBackupLogFile (cfg : Config) (env : Env) (baseDirPath baseFileName : Str)
    (e : DirEntry) : Except String (Option (Int × Str) × Bool) :=
  if e.name.length ≤ baseFileName.length ∨ e.name.take baseFileName.length ≠ baseFileName then
    .ok (none, false)
  else
    let filePath := baseDirPath ++ '/' :: e.name
    do
      let b ← ExistRegularFile filePath e.statRes
      if b = false then .ok (none, false)
      else
        match ExtractTimestamp (e.name.drop baseFileName.length) with
        | some ts => .ok (some (ts, filePath), false)
        | none =>
            match ExtractIndex (e.name.drop baseFileName.length) with
            | some _ => HandleLegacyLogFile cfg env e
            | none => .ok (none, false)

/-- The `readdir` loop of `FilterTimeBasedFilePaths`: skips non-regular
entries and `.`/`..`, collects the handled `(timestamp, path)` pairs in
directory order, and accumulates whether any handler left `errno` set. -/
def scanEntries (cfg : Config) (env : Env) (baseDirPath baseFileName : Str) :
    List DirEntry → Except String (List (Int × Str) × Bool)
  | [] => .ok ([], false)
  | e :: es =>
      if e.isReg = false then scanEntries cfg env baseDirPath baseFileName es
      else if e.name = ['.'] ∨ e.name = ['.', '.'] then
        scanEntries cfg env baseDirPath baseFileName es
      else do
        let r ← HandleBackupLogFile cfg env baseDirPath baseFileName e
        let rest ← scanEntries cfg env baseDirPath baseFileName es
        .ok ((match r.1 with
              | some pr => pr :: rest.1
              | none => rest.1), r.2 || rest.2)

/-- Embeds `FilterTimeBasedFilePaths` (TimestampedRollingFileAppender.cpp:407-450):
the result set is cleared when the final `if (errno)` check fires, i.e.
when `readdir` ended with an error or an in-loop syscall failure left
`errno` set. -/
def FilterTimeBasedFilePaths (cfg : Config) (env : Env) :
    Except String (List (Int × Str)) :=
  let db := SplitPathIntoDirAndFile cfg.fileName
  if db.2 = [] then .ok []
  else if env.opendirOk = false then .ok []
  else
    match scanEntries cfg env db.1 db.2 env.entries with
    | .error e => .error e
    | .ok r => if r.2 || env.readdirError then .ok [] else .ok r.1

/-! ### Retention (`rollOver`, TimestampedRollingFileAppender.cpp:136-214) -/

/-- Insert by timestamp; together with `sortByFst` one admissible outcome
of `std::sort` under the comparator `lhs.first < rhs.first` (ties, which
the comparator leaves unordered, keep their relative insertion order). -/
def insertByFst (x : Int × Str) : List (Int × Str) → List (Int × Str)
  | [] => [x]
  | y :: ys => if x.1 ≤ y.1 then x :: y :: ys else y :: insertByFst x ys

/-- Sort of the scanned `(timestamp, path)` vector by timestamp. -/
def sortByFst : List (Int × Str) → List (Int × Str)
  | [] => []
  | x :: xs => insertByFst x (sortByFst xs)

/-- Models `std::lower_bound` on the sorted vector with comparator
`lhs.first < rhs.first` against `(threshold, "")`: the index of the first
element whose predicate holds (here `threshold ≤ timestamp`), `none` when
no element qualifies (iterator `end()`). -/
def lowerBoundIdx (p : Int × Str → Bool) : List (Int × Str) → Option Nat
  | [] => none
  | x :: xs => if p x then some 0 else (lowerBoundIdx p xs).map (· + 1)

/-- The `lower_bound` index computed by `rollOver` lines 172-203: count cap
then age cap on the time-sorted vector. -/
def retentionLowerBound (files : List (Int × Str)) (maxBackupCount maxBackupDays now : Int) :
    Int :=
  let len : Int := files.length
  let lb1 : Int := if 0 ≤ maxBackupCount then max 0 (max 0 (len - maxBackupCount)) else 0
  if 0 ≤ maxBackupDays then
    let threshold := now - maxBackupDays * 86400
    match lowerBoundIdx (fun e => decide (threshold ≤ e.1)) files with
    | some i => max lb1 (i : Int)
    | none => len
  else lb1

/-- The deletion step of `rollOver` lines 161-208: sort, compute the lower
bound, unlink indices `[0, lower_bound)`, keep the rest. -/
def retentionDelete (files : List (Int × Str)) (maxBackupCount maxBackupDays now : Int) :
    List (Int × Str) × List (Int × Str) :=
  let sorted := sortByFst files
  let lb := (retentionLowerBound sorted maxBackupCount maxBackupDays now).toNat
  (sorted.take lb, sorted.drop lb)

/-- Embeds `rollOver` (TimestampedRollingFileAppender.cpp:136-214): close (errors
logged), format the rotation timestamp (a `strftime` throw propagates),
rename the active file (errors logged), compress it (result discarded by
the single-argument overload), scan, sort, prune.  Returns the unlinked
backup paths. -/
def rollOver (cfg : Config) (env : Env) : Except String (List Str) := do
  let dn ← GetDatetimeStr env env.now
  let lastLogFileName := cfg.fileName ++ '.' :: dn
  let _ := CompressLog env.compressFunc env.removeOk lastLogFileName
  let files ← FilterTimeBasedFilePaths cfg env
  let d := retentionDelete files cfg.maxBackupCount cfg.maxBackupDays env.now
  .ok (d.1.map (fun pr => pr.2))

/-- Embeds `_append` (TimestampedRollingFileAppender.cpp:68-134): seek to end; on
an offset at or past the limit take the lock file path (open, flock, close
and reopen the active file, re-check, roll over), every failure breaking
out with a diagnostic only; finally delegate the write to the base
appender (an external collaborator modelled as always completing).
Returns the unlinked backup paths of a performed roll-over. -/
def TRFA_append (cfg : Config) (env : Env) : Except String (List Str) :=
  if env.seekEnd1 < 0 then .ok []
  else if cfg.maxFileSize ≤ env.seekEnd1 then
    if env.lockOpenOk = false then .ok []
    else if env.flockOk = false then .ok []
    else
      if env.seekEnd2 < 0 then .ok []
      else if cfg.maxFileSize ≤ env.seekEnd2 then rollOver cfg env
      else .ok []
  else .ok []

/-- Boolean success of an `Except` computation. -/
def exceptOk : Except String α → Bool
  | .ok _ => true
  | .error _ => false

/-! ### Concrete configurations and environments used by the claims -/

/-- A benign environment: all syscalls succeed, UTC zone, empty directory. -/
def envBase : Env :=
  { now := 1000000, zoneOffset := 0, localtimeOk := true, strftimeOk := true,
    seekEnd1 := 5, lockOpenOk := true, flockOk := true, seekEnd2 := 5, opendirOk := true,
    entries := [], readdirError := false, compressFunc := none, removeOk := true }

/-- A small appender configuration. -/
def cfgBase : Config :=
  { fileName := "a.log".toList, maxFileSize := 1, maxBackupCount := 1, maxBackupDays := 1 }

/-- An environment whose directory scan meets one backup file whose `stat`
fails (a transient race: the entry was unlinked between `readdir` and
`stat`). -/
def envStatFails : Env :=
  { envBase with
    entries := [{ name := "a.log.x".toList, isReg := true, statRes := none,
                  mtime := 0, renameOk := true }] }

/-- An environment in the UTC+05:30 timezone (e.g. IST). -/
def envIst : Env := { envBase with zoneOffset := 19800 }

/-- A scan environment that gathers a classifiable backup entry but whose
`readdir` ends with an error. -/
def envRdErr : Env :=
  { envBase with
    readdirError := true,
    entries := [{ name := "a.log.20200101T000000Z".toList, isReg := true,
                  statRes := some true, mtime := 0, renameOk := true }] }

/-- A well-behaved environment over the size limit with one classifiable
backup entry whose syscalls all succeed. -/
def envScanOk : Env :=
  { envBase with
    entries := [{ name := "a.log.20200101T000000Z".toList, isReg := true,
                  statRes := some true, mtime := 0, renameOk := true }] }

/-- Default element for positional access to the scanned vector. -/
def dfltE : Int × Str := (0, [])

/-- The retention behaviour claimed for `rollOver`: with only the count cap
active the bound is `max 0 (len - count)`; with the age cap active the
bound is raised to the smallest index at or above the threshold (or to
`len` when no entry qualifies); exactly the prefix `[0, bound)` of the
time-sorted vector is deleted, the rest retained. -/
def RetentionSpec (files : List (Int × Str)) (cnt days now : Int) : Prop :=
  let len : Int := files.length
  let cb : Int := if 0 ≤ cnt then max 0 (len - cnt) else 0
  let lb := retentionLowerBound files cnt days now
  let threshold := now - days * 86400
  (days < 0 → lb = cb)
  ∧ (0 ≤ days →
      ((∃ i : Nat, (i : Int) < len ∧ threshold ≤ (files.getD i dfltE).1
          ∧ (∀ j : Nat, j < i → (files.getD j dfltE).1 < threshold)
          ∧ lb = max cb (i : Int))
       ∨ ((∀ j : Nat, (j : Int) < len → (files.getD j dfltE).1 < threshold) ∧ lb = len)))
  ∧ retentionDelete files cnt days now = (files.take lb.toNat, files.drop lb.toNat)

/-! ### Claims C3, C4, C10 (time codec and int64 conversion bugs) -/

/-- Claim C3: evaluation of the decoder at the failing input.  For the
well-formed string `20200101T000000+0530` the claim demands
`timegm(fields) - (5*3600 + 30*60) = 1577836800 - 19800 = 1577817000`;
the source parses the minutes of the zone with `offsetStr.substr(4, 2)`,
which on the colon-free `+0530` yields only the final `0`, so it computes
offset `18000` and returns `1577818800`. -/
theorem c3_iso8601_decode_minutes_bug :
    ConvertDatetimeIso8601ToTimestamp ("20200101T000000+0530".toList)
      = Except.ok 1577818800
    ∧ (1577818800 : Int) ≠ 1577836800 - (5 * 3600 + 30 * 60) := by
  exact ⟨rfl, by decide⟩

/-- Claim C4: evaluation of the round-trip at the failing input.  In a
local timezone at UTC+05:30, encoding `t = 0` yields
`19700101T053000+0530`, and decoding it yields `1800`, not `0`: the
round-trip documented by the spec fails whenever the zone offset has a
minutes component with a nonzero tens digit. -/
theorem c4_roundtrip_fails_at_offset_0530 :
    (ConvertTimeToIso8601 envIst 0).bind ConvertDatetimeIso8601ToTimestamp
      = Except.ok 1800
    ∧ (1800 : Int) ≠ 0 := by
  exact ⟨rfl, by decide⟩

/-- Claim C10: evaluation at the failing input.  The digit string
`18446744073709551616` (= 2^64) exceeds the signed 64-bit range, so the
claim demands an overflow error and an unparseable suffix; but the
source's `res < 0` check misses wraps that land back at a non-negative
value, so `ConvertStrToInt64` returns the wrapped value `0` and
`ExtractTimestamp` accepts the suffix with timestamp `0`. -/
theorem c10_int64_overflow_check_misses_wrap :
    ConvertStrToInt64 ("18446744073709551616".toList) = Except.ok 0
    ∧ digitsVal ("18446744073709551616".toList) = 18446744073709551616
    ∧ 2 ^ 63 - 1 < digitsVal ("18446744073709551616".toList)
    ∧ ExtractTimestamp (".18446744073709551616".toList) = some 0 := by
  refine ⟨rfl, by decide, by decide, by decide⟩

/-! ### Claim C2 (append never raises) -/

/-- Claim C2, counterexample: with the active file over the size limit and
one scanned backup entry whose `stat` fails, the `runtime_error` thrown by
`ExistRegularFile` propagates out of `_append` uncaught — `_append` does
not complete. -/
theorem c2_append_raises_counterexample :
    TRFA_append cfgBase envStatFails = Except.error "Could not stat" := rfl

/-- Reduction of a successful `Except` bind. -/
theorem bind_ok_eq {α β : Type} (a : α) (f : α → Except String β) :
    (Except.ok a : Except String α) >>= f = f a := rfl

/-- The datetime formatter completes whenever `strftime` succeeds (or
`localtime` already failed, which yields the empty string). -/
theorem convertTimeToIso8601_ok (env : Env) (t : Int)
    (h1 : env.localtimeOk = true → env.strftimeOk = true) :
    ∃ s, ConvertTimeToIso8601 env t = .ok s := by
  cases hl : env.localtimeOk with
  | false => exact ⟨[], by simp [ConvertTimeToIso8601, hl]⟩
  | true =>
      have hstr := h1 hl
      exact ⟨RemoveChar (formatIso env.zoneOffset t) ':',
        by simp [ConvertTimeToIso8601, hl, hstr]⟩

/-- Lemma: `GetDatetimeStr` completes under the same proviso. -/
theorem getDatetimeStr_ok (env : Env) (t : Int)
    (h1 : env.localtimeOk = true → env.strftimeOk = true) :
    ∃ s, GetDatetimeStr env t = .ok s := by
  obtain ⟨s, hs⟩ := convertTimeToIso8601_ok env t h1
  by_cases hnil : s = []
  · exact ⟨intToStr t, by simp [GetDatetimeStr, hs, hnil, bind_ok_eq]⟩
  · exact ⟨s, by simp [GetDatetimeStr, hs, hnil, bind_ok_eq]⟩

/-- Lemma: `HandleLegacyLogFile` completes under the same proviso. -/
theorem handleLegacy_ok (cfg : Config) (env : Env) (e : DirEntry)
    (h1 : env.localtimeOk = true → env.strftimeOk = true) :
    ∃ r, HandleLegacyLogFile cfg env e = .ok r := by
  unfold HandleLegacyLogFile
  by_cases hm : (GetLastModifiedTimestamp e.mtime).1 < 0
  · exact ⟨_, by rw [if_pos hm]⟩
  · rw [if_neg hm]
    obtain ⟨ds, hds⟩ := getDatetimeStr_ok env (GetLastModifiedTimestamp e.mtime).1 h1
    rw [hds, bind_ok_eq]
    cases hren : e.renameOk with
    | false => exact ⟨_, by rw [if_pos rfl]⟩
    | true => exact ⟨_, by rw [if_neg (by simp)]⟩

/-- Lemma: `HandleBackupLogFile` completes when the entry's `stat` succeeds. -/
theorem handleBackup_ok (cfg : Config) (env : Env) (d b : Str) (e : DirEntry)
    (h1 : env.localtimeOk = true → env.strftimeOk = true)
    (hstat : e.statRes ≠ none) :
    ∃ r, HandleBackupLogFile cfg env d b e = .ok r := by
  simp only [HandleBackupLogFile]
  by_cases hp : e.name.length ≤ b.length ∨ e.name.take b.length ≠ b
  · exact ⟨_, by rw [if_pos hp]⟩
  · rw [if_neg hp]
    cases hsr : e.statRes with
    | none => exact absurd hsr hstat
    | some breg =>
        have hex : ExistRegularFile (d ++ '/' :: e.name) (some breg) = .ok breg := by
          simp [ExistRegularFile]
        rw [hex, bind_ok_eq]
        cases breg with
        | false => exact ⟨_, by rw [if_pos rfl]⟩
        | true =>
            rw [if_neg (by simp)]
            cases hts : ExtractTimestamp (e.name.drop b.length) with
            | some ts => exact ⟨_, rfl⟩
            | none =>
                cases hidx : ExtractIndex (e.name.drop b.length) with
                | some i => exact handleLegacy_ok cfg env e h1
                | none => exact ⟨_, rfl⟩

/-- The scan loop completes when every entry's `stat` succeeds. -/
theorem scanEntries_ok (cfg : Config) (env : Env) (d b : Str)
    (h1 : env.localtimeOk = true → env.strftimeOk = true) :
    ∀ es : List DirEntry, (∀ e ∈ es, e.statRes ≠ none) →
      ∃ r, scanEntries cfg env d b es = .ok r := by
  intro es
  induction es with
  | nil => exact fun _ => ⟨_, rfl⟩
  | cons e es ih =>
      intro h2
      unfold scanEntries
      by_cases hreg : e.isReg = false
      · rw [if_pos hreg]
        exact ih (fun x hx => h2 x (by simp [hx]))
      · rw [if_neg hreg]
        by_cases hdots : e.name = ['.'] ∨ e.name = ['.', '.']
        · rw [if_pos hdots]
          exact ih (fun x hx => h2 x (by simp [hx]))
        · rw [if_neg hdots]
          obtain ⟨r, hr⟩ := handleBackup_ok cfg env d b e h1 (h2 e (by simp))
          obtain ⟨rs, hrs⟩ := ih (fun x hx => h2 x (by simp [hx]))
          rw [hr, bind_ok_eq, hrs, bind_ok_eq]
          exact ⟨_, rfl⟩

/-- The directory scan completes when every entry's `stat` succeeds. -/
theorem filter_ok (cfg : Config) (env : Env)
    (h1 : env.localtimeOk = true → env.strftimeOk = true)
    (h2 : ∀ e ∈ env.entries, e.statRes ≠ none) :
    ∃ r, FilterTimeBasedFilePaths cfg env = .ok r := by
  unfold FilterTimeBasedFilePaths
  by_cases hb : (SplitPathIntoDirAndFile cfg.fileName).2 = []
  · exact ⟨_, by rw [if_pos hb]⟩
  · rw [if_neg hb]
    by_cases ho : env.opendirOk = false
    · exact ⟨_, by rw [if_pos ho]⟩
    · rw [if_neg ho]
      obtain ⟨r, hr⟩ := scanEntries_ok cfg env _ _ h1 env.entries h2
      rw [hr]
      show ∃ v, (if (r.2 || env.readdirError) = true then Except.ok []
          else Except.ok r.1) = Except.ok v
      by_cases he : (r.2 || env.readdirError) = true
      · exact ⟨_, by rw [if_pos he]⟩
      · exact ⟨_, by rw [if_neg he]⟩

/-- Lemma: `rollOver` completes when every scanned `stat` succeeds and the
formatter does not fail. -/
theorem rollOver_ok (cfg : Config) (env : Env)
    (h1 : env.localtimeOk = true → env.strftimeOk = true)
    (h2 : ∀ e ∈ env.entries, e.statRes ≠ none) :
    ∃ r, rollOver cfg env = .ok r := by
  unfold rollOver
  obtain ⟨dn, hdn⟩ := getDatetimeStr_ok env env.now h1
  obtain ⟨fs, hfs⟩ := filter_ok cfg env h1 h2
  rw [hdn, bind_ok_eq, hfs, bind_ok_eq]
  exact ⟨_, rfl⟩

/-- Claim C2, amended: `_append` completes without raising for every
outcome of seek, lock-file open, flock, reopen, rename, directory scan and
compression, PROVIDED every `stat` performed on a scanned entry succeeds
and `strftime` does not fail while `localtime` succeeded; a failing `stat`
(see the counterexample) or a failing `strftime` propagates an exception
out of `_append`. -/
theorem c2_append_no_raise (cfg : Config) (env : Env)
    (h1 : env.localtimeOk = true → env.strftimeOk = true)
    (h2 : ∀ e ∈ env.entries, e.statRes ≠ none) :
    ∃ v, TRFA_append cfg env = .ok v := by
  unfold TRFA_append
  by_cases hs1 : env.seekEnd1 < 0
  · exact ⟨_, by rw [if_pos hs1]⟩
  · rw [if_neg hs1]
    by_cases hover : cfg.maxFileSize ≤ env.seekEnd1
    · rw [if_pos hover]
      by_cases hlo : env.lockOpenOk = false
      · exact ⟨_, by rw [if_pos hlo]⟩
      · rw [if_neg hlo]
        by_cases hfl : env.flockOk = false
        · exact ⟨_, by rw [if_pos hfl]⟩
        · rw [if_neg hfl]
          by_cases hs2 : env.seekEnd2 < 0
          · exact ⟨_, by rw [if_pos hs2]⟩
          · rw [if_neg hs2]
            by_cases hover2 : cfg.maxFileSize ≤ env.seekEnd2
            · rw [if_pos hover2]
              exact rollOver_ok cfg env h1 h2
            · exact ⟨_, by rw [if_neg hover2]⟩
    · exact ⟨_, by rw [if_neg hover]⟩

/-- Witness for C2's amended claim: a well-behaved over-the-limit
environment with one scanned backup entry rolls over and completes. -/
theorem c2_append_no_raise_witness :
    (envScanOk.localtimeOk = true → envScanOk.strftimeOk = true)
    ∧ (∀ e ∈ envScanOk.entries, e.statRes ≠ none)
    ∧ ∃ v, TRFA_append cfgBase envScanOk = Except.ok v := by
  refine ⟨fun _ => rfl, by decide, c2_append_no_raise cfgBase envScanOk (fun _ => rfl) (by decide)⟩

/-! ### Claim C8 (compression bridge) -/

/-- Claim C8, counterexample: when the injected compressor writes a path
into its out parameter and returns `false`, `CompressLog` removes that
partial file and returns `false`, but the out parameter keeps the
compressor-written path — the pair returned is `(false, "partial.gz")`,
not `(false, "")`. -/
theorem c8_compresslog_failure_keeps_out_param :
    CompressLog (some (fun _ => (false, "partial.gz".toList))) true ("a.log".toList)
      = ((false, "partial.gz".toList), ["partial.gz".toList], false)
    ∧ "partial.gz".toList ≠ ([] : Str) := by
  exact ⟨rfl, by decide⟩

/-- Claim C8, amended contract: without a compressor `(true, S)` is
returned and no filesystem action is taken; with a compressor the result
is exactly the callable's `(ok, produced)` pair, removal is attempted on
the source on success and on the produced path on failure, and on failure
the out parameter keeps the compressor-written produced path rather than
being reset to the empty string; the source is never removed on failure. -/
theorem c8_compresslog_contract (rm : Bool) (p : Str) :
    CompressLog none rm p = ((true, p), [], false)
    ∧ ∀ f : Str → Bool × Str,
        CompressLog (some f) rm p = (f p, [if (f p).1 then p else (f p).2], !rm) := by
  refine ⟨rfl, fun f => ?_⟩
  unfold CompressLog
  rcases hf : f p with ⟨ok, out⟩
  cases ok <;> simp [hf]

/-! ### Claim C9 (scanner atomicity) -/

/-- Claim C9: whenever directory enumeration ended with a `readdir` error,
`FilterTimeBasedFilePaths` — if it returns at all — returns the empty
result set, discarding every entry gathered before the failure. -/
theorem c9_scan_discards_on_readdir_error (cfg : Config) (env : Env)
    (v : List (Int × Str)) (hrd : env.readdirError = true)
    (h : FilterTimeBasedFilePaths cfg env = Except.ok v) : v = [] := by
  unfold FilterTimeBasedFilePaths at h
  by_cases h1 : (SplitPathIntoDirAndFile cfg.fileName).2 = []
  · simp only [h1, if_pos rfl] at h
    exact (Except.ok.inj h).symm
  · rw [if_neg h1] at h
    by_cases h2 : env.opendirOk = false
    · rw [if_pos h2] at h
      exact (Except.ok.inj h).symm
    · rw [if_neg h2] at h
      cases hs : scanEntries cfg env (SplitPathIntoDirAndFile cfg.fileName).1
          (SplitPathIntoDirAndFile cfg.fileName).2 env.entries with
      | error e => rw [hs] at h; exact absurd h (by simp)
      | ok r =>
          rw [hs] at h
          simp only [hrd, Bool.or_true, if_pos rfl] at h
          exact (Except.ok.inj h).symm

/-- Witness for C9: in `envRdErr` the gathered entry is discarded and the
scanner returns the empty set. -/
theorem c9_scan_discards_witness :
    envRdErr.readdirError = true
    ∧ FilterTimeBasedFilePaths cfgBase envRdErr = Except.ok []
    ∧ ([] : List (Int × Str)) = [] := by
  exact ⟨rfl, rfl, c9_scan_discards_on_readdir_error cfgBase envRdErr [] rfl rfl⟩

/-! ### Claim C1 (retention evaluation) -/

/-- If `lowerBoundIdx` finds index `i`, then `i` is in range, the predicate
holds at `i` and fails strictly before `i`. -/
theorem lowerBoundIdx_some_char (p : Int × Str → Bool) (l : List (Int × Str)) (i : Nat)
    (h : lowerBoundIdx p l = some i) :
    i < l.length ∧ p (l.getD i dfltE) = true ∧ ∀ j, j < i → p (l.getD j dfltE) = false := by
  induction l generalizing i with
  | nil => simp [lowerBoundIdx] at h
  | cons x xs ih =>
      by_cases hp : p x
      · simp [lowerBoundIdx, hp] at h
        subst h
        exact ⟨by simp, by simpa using hp, fun j hj => absurd hj (Nat.not_lt_zero j)⟩
      · simp [lowerBoundIdx, hp] at h
        rcases h with ⟨i0, hi0, rfl⟩
        rcases ih i0 hi0 with ⟨hlen, hat, hbefore⟩
        refine ⟨by simpa using Nat.succ_lt_succ hlen, by simpa using hat, ?_⟩
        intro j hj
        cases j with
        | zero => simpa using hp
        | succ j0 => simpa using hbefore j0 (Nat.lt_of_succ_lt_succ hj)

/-- If `lowerBoundIdx` finds nothing, the predicate fails everywhere. -/
theorem lowerBoundIdx_none_char (p : Int × Str → Bool) (l : List (Int × Str))
    (h : lowerBoundIdx p l = none) :
    ∀ j, j < l.length → p (l.getD j dfltE) = false := by
  induction l with
  | nil => intro j hj; simp at hj
  | cons x xs ih =>
      by_cases hp : p x
      · simp [lowerBoundIdx, hp] at h
      · simp [lowerBoundIdx, hp] at h
        intro j hj
        cases j with
        | zero => simpa using hp
        | succ j0 => simpa using ih h j0 (by simpa using Nat.lt_of_succ_lt_succ hj)

/-- Inserting below the head of a list keeps the list intact. -/
theorem insertByFst_cons_of_le (x y : Int × Str) (ys : List (Int × Str))
    (h : x.1 ≤ y.1) : insertByFst x (y :: ys) = x :: y :: ys := by
  simp [insertByFst, h]

/-- Sorting a time-sorted vector leaves it unchanged. -/
theorem sortByFst_eq_self (l : List (Int × Str))
    (h : l.Pairwise (fun a b => a.1 ≤ b.1)) : sortByFst l = l := by
  induction l with
  | nil => rfl
  | cons x xs ih =>
      cases h with
      | cons hrel hp =>
          rw [sortByFst, ih hp]
          cases xs with
          | nil => rfl
          | cons y ys => exact insertByFst_cons_of_le x y ys (hrel y (by simp))

/-- Claim C1: the retention evaluation of `rollOver` on a time-sorted
backup vector follows the claimed count bound, age bound and deletion
window. -/
theorem c1_retention_eval (files : List (Int × Str)) (cnt days now : Int)
    (hs : files.Pairwise (fun a b => a.1 ≤ b.1)) :
    RetentionSpec files cnt days now := by
  have hsort := sortByFst_eq_self files hs
  have hlb1 : (if 0 ≤ cnt then max 0 (max 0 ((files.length : Int) - cnt)) else 0)
      = (if 0 ≤ cnt then max 0 ((files.length : Int) - cnt) else 0) := by
    by_cases hc : 0 ≤ cnt <;> simp [hc, max_assoc]
  refine ⟨?_, ?_, ?_⟩
  · intro hd
    unfold retentionLowerBound
    rw [if_neg (by omega)]
    exact hlb1
  · intro hd
    unfold retentionLowerBound
    rw [if_pos hd]
    cases hidx : lowerBoundIdx
        (fun e => decide (now - days * 86400 ≤ e.1)) files with
    | some i =>
        rcases lowerBoundIdx_some_char _ _ _ hidx with ⟨hlen, hat, hbefore⟩
        refine Or.inl ⟨i, by exact_mod_cast hlen, by simpa using hat, ?_, ?_⟩
        · intro j hj
          have hb := hbefore j hj
          simp only [decide_eq_false_iff_not, not_le] at hb
          exact hb
        · simp only [hidx]
          rw [hlb1]
    | none =>
        refine Or.inr ⟨?_, by simp only [hidx]⟩
        intro j hj
        have hb := lowerBoundIdx_none_char _ _ hidx j (by exact_mod_cast hj)
        simp only [decide_eq_false_iff_not, not_le] at hb
        exact hb
  · unfold retentionDelete
    rw [hsort]

/-- Witness for C1 at a concrete sorted vector: three backups at times
10, 20, 30, `max_backup_count = 1`, `max_backup_days = 0`, `now = 25`. -/
theorem c1_retention_eval_witness :
    ([((10 : Int), "a".toList), (20, "b".toList), (30, "c".toList)].Pairwise
        (fun a b => a.1 ≤ b.1))
    ∧ RetentionSpec [((10 : Int), "a".toList), (20, "b".toList), (30, "c".toList)] 1 0 25 := by
  exact ⟨by decide, c1_retention_eval _ 1 0 25 (by decide)⟩

/-! ### Helper lemmas on digit runs -/

/-- Lemma: `takeWhile` walks through a fully satisfying run. -/
theorem takeWhile_all_append {p : Char → Bool} {l r : Str} (hl : l.all p = true) :
    (l ++ r).takeWhile p = l ++ r.takeWhile p := by
  rw [List.takeWhile_append, List.takeWhile_eq_self_iff.2 (List.all_eq_true.1 hl)]
  simp

/-- Dropping the matched run of `takeWhile` yields `dropWhile`. -/
theorem drop_takeWhile_length (p : Char → Bool) (l : Str) :
    l.drop (l.takeWhile p).length = l.dropWhile p := by
  have h := List.drop_left (l.takeWhile p) (l.dropWhile p)
  rwa [List.takeWhile_append_dropWhile] at h

/-- Every in-range position of an all-satisfying list satisfies. -/
theorem all_getD {p : Char → Bool} {l : Str} (hall : l.all p = true) {i : Nat}
    (hi : i < l.length) (d : Char) : p (l.getD i d) = true := by
  rw [List.getD_eq_getElem l d hi]
  exact List.all_eq_true.1 hall _ (List.getElem_mem hi)

/-! ### Claim C7 (epoch and legacy suffix recognition) -/

/-- A spec-shaped epoch suffix is matched exactly by `ExtractDigits`. -/
theorem extractDigits_eq_of_spec {s ds : Str} (h : EpochSpecMatch s ds) :
    ExtractDigits s = ds := by
  rcases h with ⟨rest, rfl, hall, hlen, hrest⟩
  have htw : (ds ++ rest).takeWhile isDig = ds := by
    rw [takeWhile_all_append hall]
    rcases hrest with rfl | ⟨r, rfl⟩
    · simp
    · simp [List.takeWhile_cons, isDig]
  simp only [ExtractDigits, ne_eq, not_true_eq_false, if_false, htw, ite_not]
  rw [if_neg (by omega), List.drop_left]
  rcases hrest with rfl | ⟨r, rfl⟩
  · simp
  · simp

/-- A non-empty `ExtractDigits` result exhibits the spec epoch shape. -/
theorem extractDigits_spec_of_ne {s : Str} (h : ExtractDigits s ≠ []) :
    EpochSpecMatch s (ExtractDigits s) := by
  match s with
  | [] => exact absurd rfl h
  | c :: t =>
      by_cases hc : c = '.'
      · subst hc
        rw [show ExtractDigits ('.' :: t)
            = (if (t.takeWhile isDig).length < 8 then []
               else
                 match t.drop (t.takeWhile isDig).length with
                 | [] => t
                 | c2 :: _ => if c2 = '.' then t.takeWhile isDig else []) from rfl] at h ⊢
        by_cases hlen : (t.takeWhile isDig).length < 8
        · rw [if_pos hlen] at h
          exact absurd rfl h
        · rw [if_neg hlen] at h ⊢
          cases hdrop : t.drop (t.takeWhile isDig).length with
          | nil =>
              have hdw : t.dropWhile isDig = [] := by
                rw [← drop_takeWhile_length isDig t]; exact hdrop
              have hallt : t.all isDig = true :=
                List.all_eq_true.2 (List.dropWhile_eq_nil_iff.1 hdw)
              have htw : t.takeWhile isDig = t :=
                List.takeWhile_eq_self_iff.2 (List.all_eq_true.1 hallt)
              show EpochSpecMatch ('.' :: t) t
              exact ⟨[], by simp, hallt, by rw [htw] at hlen; omega, Or.inl rfl⟩
          | cons c2 r =>
              by_cases hc2 : c2 = '.'
              · subst hc2
                show EpochSpecMatch ('.' :: t) (t.takeWhile isDig)
                have ht : t = t.takeWhile isDig ++ '.' :: r := by
                  conv_lhs => rw [← List.takeWhile_append_dropWhile isDig t]
                  rw [← drop_takeWhile_length isDig t, hdrop]
                refine ⟨'.' :: r, by rw [← ht], List.all_takeWhile, by omega, Or.inr ⟨r, rfl⟩⟩
              · rw [hdrop] at h
                have h2 : (if c2 = '.' then t.takeWhile isDig else []) ≠ [] := h
                rw [if_neg hc2] at h2
                exact absurd rfl h2
      · exact absurd (by simp [ExtractDigits, hc]) h

/-- A spec-shaped legacy suffix is matched exactly by `ExtractDigits1`. -/
theorem extractDigits1_eq_of_spec {s ds : Str} (h : LegacySpecMatch s ds) :
    ExtractDigits1 s = ds := by
  rcases h with ⟨rfl, hne, hall⟩
  simp [ExtractDigits1, hne, hall]

/-- A non-empty `ExtractDigits1` result exhibits the spec legacy shape. -/
theorem extractDigits1_spec_of_ne {s : Str} (h : ExtractDigits1 s ≠ []) :
    LegacySpecMatch s (ExtractDigits1 s) := by
  match s with
  | [] => exact absurd rfl h
  | c :: t =>
      by_cases hc : c = '.'
      · subst hc
        simp only [ExtractDigits1, ne_eq, not_true_eq_false, if_false, ite_not] at h ⊢
        by_cases hg : t ≠ [] ∧ t.all isDig
        · rw [if_pos hg] at h ⊢
          exact ⟨rfl, hg.1, hg.2⟩
        · rw [if_neg hg] at h
          exact absurd rfl h
      · exact absurd (by simp [ExtractDigits1, hc]) h

/-- Lemma: `wrap64` is the identity on the non-negative half of the int64 range. -/
theorem wrap64_id {x : Int} (h0 : 0 ≤ x) (h1 : x < 2 ^ 63) : wrap64 x = x := by
  unfold wrap64
  omega

/-- Folding digits onto a non-negative accumulator never decreases it. -/
theorem le_digitsValFrom {ds : Str} (hall : ds.all isDig = true) :
    ∀ acc : Int, 0 ≤ acc → acc ≤ digitsValFrom acc ds := by
  induction ds with
  | nil => intro acc h; exact le_of_eq rfl
  | cons c cs ih =>
      intro acc h0
      rw [List.all_cons, Bool.and_eq_true] at hall
      have hc : 48 ≤ (c.toNat : Int) ∧ (c.toNat : Int) ≤ 57 := by
        have := hall.1
        unfold isDig at this
        rw [Bool.and_eq_true, decide_eq_true_eq, decide_eq_true_eq] at this
        exact ⟨by exact_mod_cast this.1, by exact_mod_cast this.2⟩
      have step : acc ≤ acc * 10 + ((c.toNat : Int) - 48) := by omega
      have := ih hall.2 (acc * 10 + ((c.toNat : Int) - 48)) (by omega)
      calc acc ≤ acc * 10 + ((c.toNat : Int) - 48) := step
        _ ≤ digitsValFrom (acc * 10 + ((c.toNat : Int) - 48)) cs := this
        _ = digitsValFrom acc (c :: cs) := rfl

/-- The conversion loop computes the decimal value when it stays within
the signed 64-bit range. -/
theorem convLoop_ok {ds : Str} (hall : ds.all isDig = true) :
    ∀ acc : Int, 0 ≤ acc → digitsValFrom acc ds < 2 ^ 63 →
      convLoop acc ds = .ok (digitsValFrom acc ds) := by
  induction ds with
  | nil => intro acc h0 hlt; rfl
  | cons c cs ih =>
      intro acc h0 hlt
      rw [List.all_cons, Bool.and_eq_true] at hall
      have hc : 48 ≤ (c.toNat : Int) ∧ (c.toNat : Int) ≤ 57 := by
        have := hall.1
        unfold isDig at this
        rw [Bool.and_eq_true, decide_eq_true_eq, decide_eq_true_eq] at this
        exact ⟨by exact_mod_cast this.1, by exact_mod_cast this.2⟩
      have hacc : 0 ≤ acc * 10 + ((c.toNat : Int) - 48) := by omega
      have hle : acc * 10 + ((c.toNat : Int) - 48)
          ≤ digitsValFrom (acc * 10 + ((c.toNat : Int) - 48)) cs :=
        le_digitsValFrom hall.2 _ hacc
      have hval : digitsValFrom acc (c :: cs)
          = digitsValFrom (acc * 10 + ((c.toNat : Int) - 48)) cs := rfl
      rw [hval] at hlt
      have hw : wrap64 (acc * 10 + ((c.toNat : Int) - 48))
          = acc * 10 + ((c.toNat : Int) - 48) :=
        wrap64_id hacc (by omega)
      unfold convLoop
      rw [hw, if_neg (by omega), hval]
      exact ih hall.2 _ hacc hlt

/-- Lemma: `ConvertStrToInt64` returns the decimal value of an in-range digit
string. -/
theorem convertStrToInt64_ok {ds : Str} (hne : ds ≠ []) (hall : ds.all isDig = true)
    (hlt : digitsVal ds < 2 ^ 63) : ConvertStrToInt64 ds = .ok (digitsVal ds) := by
  unfold ConvertStrToInt64
  rw [if_neg hne, if_neg (by rw [hall]; exact fun h => h rfl)]
  exact convLoop_ok hall 0 (le_of_eq rfl) hlt

/-- An epoch-shaped suffix is never matched by the ISO-8601 extractor:
position 9 of the suffix holds a digit or a dot, never `T`. -/
theorem iso_empty_of_epoch {s ds : Str} (h : EpochSpecMatch s ds) :
    ExtractDatetimeIso8601 s = [] := by
  rcases h with ⟨rest, rfl, hall, hlen, hrest⟩
  unfold ExtractDatetimeIso8601
  by_cases h1 : ('.' :: (ds ++ rest)).length < 17
      ∨ ('.' :: (ds ++ rest)).getD 0 ' ' ≠ '.'
      ∨ ¬ ((('.' :: (ds ++ rest)).drop 1).take 8).all isDig
  · rw [if_pos h1]
  · rw [if_neg h1]
    push_neg at h1
    have hlong : 17 ≤ ('.' :: (ds ++ rest)).length := by omega
    have hT : ('.' :: (ds ++ rest)).getD 9 ' ' ≠ 'T' := by
      rw [List.getD_cons_succ]
      by_cases h8 : 8 < ds.length
      · rw [List.getD_append _ _ _ 8 h8]
        intro hEq
        have := all_getD hall h8 ' '
        rw [hEq] at this
        exact absurd this (by decide)
      · have h8' : ds.length ≤ 8 := by omega
        rw [List.getD_append_right _ _ _ 8 h8']
        rcases hrest with rfl | ⟨r, rfl⟩
        · exfalso
          simp only [List.length_cons, List.length_append, List.length_nil] at hlong
          omega
        · have : ds.length = 8 := by omega
          rw [this]
          simp
    rw [if_pos (Or.inl hT)]

/-- On an epoch-shaped suffix within int64 range, `ExtractTimestamp`
yields the decimal value of the digit run. -/
theorem extractTimestamp_of_epoch {s ds : Str} (h : EpochSpecMatch s ds)
    (hlt : digitsVal ds < 2 ^ 63) : ExtractTimestamp s = some (digitsVal ds) := by
  have hiso := iso_empty_of_epoch h
  have hdig := extractDigits_eq_of_spec h
  have hne : ds ≠ [] := by
    rcases h with ⟨rest, _, _, hlen, _⟩
    intro hnil
    rw [hnil] at hlen
    simp at hlen
  have hs : s ≠ [] := by
    rcases h with ⟨rest, rfl, _, _, _⟩
    simp
  unfold ExtractTimestamp
  rw [if_neg hs]
  simp only [hiso, ne_eq, not_true_eq_false, if_false, hdig]
  rw [if_pos (by simpa using hne), convertStrToInt64_ok hne (by
    rcases h with ⟨rest, _, hall, _, _⟩
    exact hall) hlt]

/-- Claim C7: the epoch rule matches exactly the dot-plus-at-least-eight-
digits suffixes with an optional dotted tail, yielding the digit run (and,
within int64 range, its decimal value as the timestamp); the legacy rule
matches exactly the dot-plus-digits suffixes with no further segment. -/
theorem c7_epoch_legacy_recognition (s : Str) :
    (ExtractDigits s ≠ [] ↔ ∃ ds, EpochSpecMatch s ds)
    ∧ (∀ ds, EpochSpecMatch s ds → ExtractDigits s = ds)
    ∧ (ExtractDigits1 s ≠ [] ↔ ∃ ds, LegacySpecMatch s ds)
    ∧ (∀ ds, LegacySpecMatch s ds → ExtractDigits1 s = ds)
    ∧ (∀ ds, EpochSpecMatch s ds → digitsVal ds < 2 ^ 63 →
        ExtractTimestamp s = some (digitsVal ds)) := by
  refine ⟨⟨fun h => ⟨_, extractDigits_spec_of_ne h⟩, ?_⟩,
      fun ds h => extractDigits_eq_of_spec h,
      ⟨fun h => ⟨_, extractDigits1_spec_of_ne h⟩, ?_⟩,
      fun ds h => extractDigits1_eq_of_spec h,
      fun ds h hlt => extractTimestamp_of_epoch h hlt⟩
  · rintro ⟨ds, h⟩
    rw [extractDigits_eq_of_spec h]
    rcases h with ⟨rest, _, _, hlen, _⟩
    intro hnil
    rw [hnil] at hlen
    simp at hlen
  · rintro ⟨ds, h⟩
    rw [extractDigits1_eq_of_spec h]
    exact h.2.1

/-- Witness for C7 at the suffix `.12345678.gz`. -/
theorem c7_epoch_legacy_recognition_witness :
    EpochSpecMatch (".12345678.gz".toList) ("12345678".toList)
    ∧ ExtractTimestamp (".12345678.gz".toList) = some (digitsVal ("12345678".toList)) := by
  have hspec : EpochSpecMatch (".12345678.gz".toList) ("12345678".toList) :=
    ⟨".gz".toList, by decide, by decide, by decide, Or.inr ⟨"gz".toList, by decide⟩⟩
  exact ⟨hspec,
    (c7_epoch_legacy_recognition (".12345678.gz".toList)).2.2.2.2 _ hspec (by decide)⟩

/-! ### Claim C6 (ISO-8601 suffix recognition) -/

/-- A list of length 17 is seventeen explicit elements. -/
theorem exists_list_len17 {l : Str} (h : l.length = 17) :
    ∃ a0 a1 a2 a3 a4 a5 a6 a7 a8 a9 a10 a11 a12 a13 a14 a15 a16,
      l = [a0,a1,a2,a3,a4,a5,a6,a7,a8,a9,a10,a11,a12,a13,a14,a15,a16] := by
  match l, h with
  | [a0,a1,a2,a3,a4,a5,a6,a7,a8,a9,a10,a11,a12,a13,a14,a15,a16], _ =>
      exact ⟨a0,a1,a2,a3,a4,a5,a6,a7,a8,a9,a10,a11,a12,a13,a14,a15,a16, rfl⟩

/-- A list of length 8 is eight explicit elements. -/
theorem exists_list_len8 {l : Str} (h : l.length = 8) :
    ∃ a b c d e f g k, l = [a,b,c,d,e,f,g,k] := by
  match l, h with
  | [a,b,c,d,e,f,g,k], _ => exact ⟨a,b,c,d,e,f,g,k, rfl⟩

/-- A list of length 6 is six explicit elements. -/
theorem exists_list_len6 {l : Str} (h : l.length = 6) :
    ∃ a b c d e f, l = [a,b,c,d,e,f] := by
  match l, h with
  | [a,b,c,d,e,f], _ => exact ⟨a,b,c,d,e,f, rfl⟩

/-- A list of length 4 is four explicit elements. -/
theorem exists_list_len4 {l : Str} (h : l.length = 4) :
    ∃ a b c d, l = [a,b,c,d] := by
  match l, h with
  | [a,b,c,d], _ => exact ⟨a,b,c,d, rfl⟩

/-- A spec-shaped ISO-8601 suffix is matched by `ExtractDatetimeIso8601`,
and the match is the datetime-with-zone portion. -/
theorem iso_eq_of_spec {s m : Str} (h : IsoSpecMatch s m) :
    ExtractDatetimeIso8601 s = m := by
  rcases h with ⟨d8, d6, zone, rest, rfl, h8len, h8all, h6len, h6all, hzone, htail, rfl⟩
  obtain ⟨y1,y2,y3,y4,y5,y6,y7,y8, rfl⟩ := exists_list_len8 h8len
  obtain ⟨k1,k2,k3,k4,k5,k6, rfl⟩ := exists_list_len6 h6len
  simp at h8all h6all
  rcases hzone with rfl | ⟨c, a, b, e, f, hc, ha, hb, he, hf, rfl⟩
  · rcases htail with rfl | ⟨r, rfl⟩
    · simp [ExtractDatetimeIso8601, h8all, h6all]
    · simp [ExtractDatetimeIso8601, h8all, h6all]
  · have hcz : c ≠ 'Z' := by rcases hc with rfl | rfl <;> decide
    rcases htail with rfl | ⟨r, rfl⟩
    · simp [ExtractDatetimeIso8601, h8all, h6all, ha, hb, he, hf, hcz, hc]
    · simp [ExtractDatetimeIso8601, h8all, h6all, ha, hb, he, hf, hcz, hc]
      rw [if_neg (by omega), if_neg (by omega)]

/-- A non-empty `ExtractDatetimeIso8601` result exhibits the spec ISO-8601
shape with the result as the matched portion. -/
theorem iso_spec_of_ne {s : Str} (hne : ExtractDatetimeIso8601 s ≠ []) :
    IsoSpecMatch s (ExtractDatetimeIso8601 s) := by
  by_cases h1 : s.length < 17 ∨ s.getD 0 ' ' ≠ '.' ∨ ¬ ((s.drop 1).take 8).all isDig
  · exact absurd (by unfold ExtractDatetimeIso8601; rw [if_pos h1]) hne
  by_cases h2 : s.getD 9 ' ' ≠ 'T' ∨ ¬ ((s.drop 10).take 6).all isDig
  · exact absurd (by unfold ExtractDatetimeIso8601; rw [if_neg h1, if_pos h2]) hne
  push_neg at h1 h2
  obtain ⟨h1a, h1b, h1c⟩ := h1
  obtain ⟨h2a, h2b⟩ := h2
  have h17 : (s.take 17).length = 17 := by simp [List.length_take]; omega
  obtain ⟨c0,c1,c2,c3,c4,c5,c6,c7,c8,c9,c10,c11,c12,c13,c14,c15,c16, heq⟩ :=
    exists_list_len17 h17
  have hs : s = [c0,c1,c2,c3,c4,c5,c6,c7,c8,c9,c10,c11,c12,c13,c14,c15,c16] ++ s.drop 17 := by
    rw [← heq, List.take_append_drop]
  rw [hs] at h1b h1c h2a h2b hne ⊢
  revert hne
  generalize s.drop 17 = r
  intro hne
  simp at h1b h2a
  subst h1b
  subst h2a
  simp at h1c h2b
  obtain ⟨hc1, hc2, hc3, hc4, hc5, hc6, hc7, hc8⟩ := h1c
  obtain ⟨hk1, hk2, hk3, hk4, hk5, hk6⟩ := h2b
  by_cases hz : c16 = 'Z'
  · subst hz
    cases r with
    | nil =>
        refine ⟨[c1,c2,c3,c4,c5,c6,c7,c8], [c10,c11,c12,c13,c14,c15], ['Z'], [],
          by simp, by simp, by simp [hc1,hc2,hc3,hc4,hc5,hc6,hc7,hc8], by simp,
          by simp [hk1,hk2,hk3,hk4,hk5,hk6], Or.inl rfl, Or.inl rfl, ?_⟩
        simp [ExtractDatetimeIso8601, hc1,hc2,hc3,hc4,hc5,hc6,hc7,hc8,
          hk1,hk2,hk3,hk4,hk5,hk6]
    | cons c17 r2 =>
        by_cases hdot : c17 = '.'
        · subst hdot
          refine ⟨[c1,c2,c3,c4,c5,c6,c7,c8], [c10,c11,c12,c13,c14,c15], ['Z'], '.' :: r2,
            by simp, by simp, by simp [hc1,hc2,hc3,hc4,hc5,hc6,hc7,hc8], by simp,
            by simp [hk1,hk2,hk3,hk4,hk5,hk6], Or.inl rfl, Or.inr ⟨r2, rfl⟩, ?_⟩
          simp [ExtractDatetimeIso8601, hc1,hc2,hc3,hc4,hc5,hc6,hc7,hc8,
            hk1,hk2,hk3,hk4,hk5,hk6]
        · exact absurd (by
            simp [ExtractDatetimeIso8601, hc1,hc2,hc3,hc4,hc5,hc6,hc7,hc8,
              hk1,hk2,hk3,hk4,hk5,hk6, hdot]) hne
  · by_cases hpm : c16 = '+' ∨ c16 = '-'
    · by_cases hr4 : 4 ≤ r.length
      · have h4 : (r.take 4).length = 4 := by simp [List.length_take]; omega
        obtain ⟨d0, d1, d2, d3, heq4⟩ := exists_list_len4 h4
        have hr : r = [d0, d1, d2, d3] ++ r.drop 4 := by
          rw [← heq4, List.take_append_drop]
        rw [hr] at hne ⊢
        revert hne
        generalize r.drop 4 = r2
        intro hne
        by_cases hdig : isDig d0 = true ∧ isDig d1 = true ∧ isDig d2 = true ∧ isDig d3 = true
        · obtain ⟨hd0, hd1, hd2, hd3⟩ := hdig
          cases r2 with
          | nil =>
              refine ⟨[c1,c2,c3,c4,c5,c6,c7,c8], [c10,c11,c12,c13,c14,c15],
                [c16, d0, d1, d2, d3], [],
                by simp, by simp, by simp [hc1,hc2,hc3,hc4,hc5,hc6,hc7,hc8], by simp,
                by simp [hk1,hk2,hk3,hk4,hk5,hk6],
                Or.inr ⟨c16, d0, d1, d2, d3, hpm, hd0, hd1, hd2, hd3, rfl⟩,
                Or.inl rfl, ?_⟩
              simp [ExtractDatetimeIso8601, hc1,hc2,hc3,hc4,hc5,hc6,hc7,hc8,
                hk1,hk2,hk3,hk4,hk5,hk6, hz, hpm, hd0, hd1, hd2, hd3]
          | cons c21 r3 =>
              by_cases hdot : c21 = '.'
              · subst hdot
                refine ⟨[c1,c2,c3,c4,c5,c6,c7,c8], [c10,c11,c12,c13,c14,c15],
                  [c16, d0, d1, d2, d3], '.' :: r3,
                  by simp, by simp, by simp [hc1,hc2,hc3,hc4,hc5,hc6,hc7,hc8], by simp,
                  by simp [hk1,hk2,hk3,hk4,hk5,hk6],
                  Or.inr ⟨c16, d0, d1, d2, d3, hpm, hd0, hd1, hd2, hd3, rfl⟩,
                  Or.inr ⟨r3, rfl⟩, ?_⟩
                simp [ExtractDatetimeIso8601, hc1,hc2,hc3,hc4,hc5,hc6,hc7,hc8,
                  hk1,hk2,hk3,hk4,hk5,hk6, hz, hpm, hd0, hd1, hd2, hd3]
                rw [if_neg (by omega), if_neg (by omega)]
              · refine absurd ?_ hne
                simp [ExtractDatetimeIso8601, hc1,hc2,hc3,hc4,hc5,hc6,hc7,hc8,
                  hk1,hk2,hk3,hk4,hk5,hk6, hz, hpm, hd0, hd1, hd2, hd3, hdot]
        · have hall : (([d0, d1, d2, d3] : Str).all isDig) = false := by
            by_contra hcon
            rw [Bool.not_eq_false] at hcon
            simp [Bool.and_eq_true] at hcon
            exact hdig ⟨hcon.1, hcon.2.1, hcon.2.2.1, hcon.2.2.2⟩
          refine absurd ?_ hne
          simp [ExtractDatetimeIso8601, hc1,hc2,hc3,hc4,hc5,hc6,hc7,hc8,
            hk1,hk2,hk3,hk4,hk5,hk6, hz, hpm, hall]
      · refine absurd ?_ hne
        simp [ExtractDatetimeIso8601, hc1,hc2,hc3,hc4,hc5,hc6,hc7,hc8,
          hk1,hk2,hk3,hk4,hk5,hk6, hz, hpm]
        intro h
        exact absurd h hr4
    · exact absurd (by
        simp [ExtractDatetimeIso8601, hc1,hc2,hc3,hc4,hc5,hc6,hc7,hc8,
          hk1,hk2,hk3,hk4,hk5,hk6, hz, hpm]) hne

/-- Claim C6: `ExtractDatetimeIso8601` returns a non-empty match exactly on
the spec's ISO-8601 suffix grammar, and the match is the datetime-with-zone
portion without the leading dot. -/
theorem c6_iso8601_suffix_recognition (s : Str) :
    (ExtractDatetimeIso8601 s ≠ [] ↔ ∃ m, IsoSpecMatch s m)
    ∧ (∀ m, IsoSpecMatch s m → ExtractDatetimeIso8601 s = m) := by
  refine ⟨⟨fun h => ⟨_, iso_spec_of_ne h⟩, ?_⟩, fun m h => iso_eq_of_spec h⟩
  rintro ⟨m, h⟩
  rw [iso_eq_of_spec h]
  rcases h with ⟨d8, d6, zone, rest, _, h8len, _, _, _, _, _, rfl⟩
  simp

/-- Witness for C6 at the suffix `.20240115T120000Z.gz`. -/
theorem c6_iso8601_suffix_recognition_witness :
    IsoSpecMatch (".20240115T120000Z.gz".toList) ("20240115T120000Z".toList)
    ∧ ExtractDatetimeIso8601 (".20240115T120000Z.gz".toList) = "20240115T120000Z".toList := by
  have hspec : IsoSpecMatch (".20240115T120000Z.gz".toList) ("20240115T120000Z".toList) :=
    ⟨"20240115".toList, "120000".toList, ['Z'], ".gz".toList, by decide, by decide,
      by decide, by decide, by decide, Or.inl rfl, Or.inr ⟨"gz".toList, by decide⟩, by decide⟩
  exact ⟨hspec, (c6_iso8601_suffix_recognition _).2 _ hspec⟩

/-! ### Claim C5 (classifier) -/

/-- An ISO-8601-shaped suffix is matched by neither digit rule. -/
theorem digits_empty_of_iso {s m : Str} (h : IsoSpecMatch s m) :
    ExtractDigits s = [] ∧ ExtractDigits1 s = [] := by
  rcases h with ⟨d8, d6, zone, rest, rfl, h8len, h8all, h6len, h6all, hzone, htail, rfl⟩
  obtain ⟨y1,y2,y3,y4,y5,y6,y7,y8, rfl⟩ := exists_list_len8 h8len
  simp at h8all
  have hT : isDig 'T' = false := by decide
  constructor
  · simp [ExtractDigits, List.takeWhile_cons, h8all, hT]
  · simp [ExtractDigits1, hT]

/-- Claim C5, amended: the classifier is a total function giving exactly
one classification; the ISO-8601 rule is disjoint from both digit rules;
but the epoch and legacy rules both match every suffix of a dot followed
by at least eight digits with no further segment, and rule order resolves
such a suffix (within int64 range) to the epoch classification. -/
theorem c5_classifier_amended (s : Str) :
    (∃! c, classifySuffix s = c)
    ∧ (ExtractDatetimeIso8601 s ≠ [] → ExtractDigits s = [] ∧ ExtractDigits1 s = [])
    ∧ ((ExtractDigits s ≠ [] ∧ ExtractDigits1 s ≠ []) ↔
        ∃ ds, s = '.' :: ds ∧ ds.all isDig = true ∧ 8 ≤ ds.length)
    ∧ (∀ ds, s = '.' :: ds → ds.all isDig = true → 8 ≤ ds.length →
        digitsVal ds < 2 ^ 63 → classifySuffix s = SuffixClass.epochClass) := by
  refine ⟨⟨classifySuffix s, rfl, fun y hy => hy.symm⟩, ?_, ⟨?_, ?_⟩, ?_⟩
  · intro h
    exact digits_empty_of_iso (iso_spec_of_ne h)
  · rintro ⟨hd, hd1⟩
    have hL := extractDigits1_spec_of_ne hd1
    obtain ⟨rest, hEs, hEall, hElen, hErest⟩ := extractDigits_spec_of_ne hd
    have ht : ExtractDigits1 s = ExtractDigits s ++ rest := by
      have h2 := hL.1.symm.trans hEs
      injection h2 with _ h3
    refine ⟨ExtractDigits1 s, hL.1, hL.2.2, ?_⟩
    rcases hErest with rfl | ⟨r, rfl⟩
    · rw [ht]
      simpa using hElen
    · exfalso
      have hmem : '.' ∈ ExtractDigits1 s := by rw [ht]; simp
      have := List.all_eq_true.1 hL.2.2 _ hmem
      exact absurd this (by decide)
  · rintro ⟨ds, rfl, hall, hlen⟩
    have hne : ds ≠ [] := by intro h; rw [h] at hlen; simp at hlen
    constructor
    · rw [extractDigits_eq_of_spec ⟨[], by simp, hall, hlen, Or.inl rfl⟩]
      exact hne
    · rw [extractDigits1_eq_of_spec ⟨rfl, hne, hall⟩]
      exact hne
  · intro ds hseq hall hlen hlt
    subst hseq
    have hepoch : EpochSpecMatch ('.' :: ds) ds := ⟨[], by simp, hall, hlen, Or.inl rfl⟩
    have hts := extractTimestamp_of_epoch hepoch hlt
    have hiso := iso_empty_of_epoch hepoch
    unfold classifySuffix
    rw [hts]
    simp [hiso]

/-- Witness for C5's amended claim at the overlap suffix `.12345678`. -/
theorem c5_classifier_amended_witness :
    (ExtractDigits (".12345678".toList) ≠ [] ∧ ExtractDigits1 (".12345678".toList) ≠ [])
    ∧ classifySuffix (".12345678".toList) = SuffixClass.epochClass := by
  refine ⟨(c5_classifier_amended _).2.2.1.2 ⟨"12345678".toList, by decide, by decide, by decide⟩,
    (c5_classifier_amended _).2.2.2 ("12345678".toList) (by decide) (by decide) (by decide)
      (by decide)⟩

/-- Claim C5, counterexample: the suffix `.12345678` (a dot followed by
exactly eight digits and no further segment) is matched both by the epoch
rule (`ExtractDigits`) and by the legacy rule (`ExtractDigits1`), so the
classification rules are not pairwise disjoint. -/
theorem c5_epoch_legacy_rules_overlap :
    ExtractDigits (".12345678".toList) = "12345678".toList
    ∧ ExtractDigits1 (".12345678".toList) = "12345678".toList := by
  exact ⟨by decide, by decide⟩

end Log4cpp
